import Mathlib

/-!
Shallow embedding of the WebRTC signaling server (`src/server.js`).

The server keeps a single JavaScript `Set` called `clients` (line 80).
The `connection` handler (lines 82-84) adds the new socket, the
`message` handler (lines 86-97) relays the payload to every other
connected client whose `readyState` is 1 (OPEN), the `close` handler
(lines 99-102) deletes the socket from the set and the `error` handler
(lines 104-106) only logs.  The HTTP side (lines 37-73) serves a fixed
route table and the port comes from `process.env.PORT || 8080`
(line 31).

Sockets are identified by natural numbers.  A JavaScript `Set` keeps
insertion order and never holds duplicates, so `clients` is a
duplicate-free `List Nat`: `Set.add` appends when absent, `Set.delete`
removes the occurrence.  The `readyState` of each socket at the moment
a broadcast runs is environment input, carried on the message event as
a function `Client → Nat` (1 = OPEN, matching the literal comparison
`client.readyState === 1` on line 93).
-/

abbrev Client := Nat

/-- A WebSocket payload: a text frame (a list of Unicode scalar values)
or a binary frame (a list of bytes). -/
inductive Frame
  | text (cps : List Nat)
  | binary (bytes : List Nat)
deriving DecidableEq, Repr

/-- The events the `ws` server delivers to the handlers installed in
`wss.on("connection", ...)` (src/server.js lines 82-107). -/
inductive Event
  | connection (ws : Client)
  | message (ws : Client) (raw : Frame) (rs : Client → Nat)
  | close (ws : Client)
  | error (ws : Client)

/-- The mutable state of the signaling server: the `clients` set
(src/server.js line 80), modelled as an insertion-ordered
duplicate-free list. -/
structure ServerState where
  clients : List Client
deriving DecidableEq, Repr

/-- `Set.prototype.add`: appends the element when absent, no-op when
already a member. -/
def setAdd (l : List Client) (x : Client) : List Client :=
  if x ∈ l then l else l ++ [x]

/-- `Set.prototype.delete`: removes the element.  The set never holds
duplicates, so removal is a filter. -/
def setDelete (l : List Client) (x : Client) : List Client :=
  l.filter (fun c => decide (c ≠ x))

/-- The `for (const client of clients)` loop of the message handler
(src/server.js lines 92-96): the destinations that pass the guard
`client !== ws && client.readyState === 1`. -/
def broadcastTargets (clients : List Client) (ws : Client) (rs : Client → Nat) :
    List Client :=
  clients.filter (fun c => decide (c ≠ ws ∧ rs c = 1))

/-- The same loop, recording each `client.send(message)` attempt
together with its outcome.  `ws.send` never throws synchronously on a
socket that passed the `readyState === 1` check (write failures
surface asynchronously on the destination socket), so the loop
continues unconditionally: the outcome of one attempt does not enter
the control flow. -/
def broadcastLoop (clients : List Client) (ws : Client) (rs : Client → Nat)
    (sendOk : Client → Bool) : List (Client × Bool) :=
  match clients with
  | [] => []
  | c :: cs =>
    if c ≠ ws ∧ rs c = 1 then (c, sendOk c) :: broadcastLoop cs ws rs sendOk
    else broadcastLoop cs ws rs sendOk

/-- State transition of one handler invocation.  Only `connection`
(line 83, `clients.add(ws)`) and `close` (line 100,
`clients.delete(ws)`) touch the set; the `message` handler only reads
it and the `error` handler only logs. -/
def step (s : ServerState) : Event → ServerState
  | .connection ws => ⟨setAdd s.clients ws⟩
  | .message _ _ _ => s
  | .close ws => ⟨setDelete s.clients ws⟩
  | .error _ => s

def runFrom (s : ServerState) : List Event → ServerState
  | [] => s
  | e :: tr => runFrom (step s e) tr

/-- The state reached by processing a trace of events from the empty
initial set. -/
def runTrace (tr : List Event) : ServerState :=
  runFrom ⟨[]⟩ tr

theorem mem_setAdd (l : List Client) (x c : Client) :
    c ∈ setAdd l x ↔ c ∈ l ∨ c = x := by
  unfold setAdd
  split
  · rename_i h
    constructor
    · exact Or.inl
    · rintro (hc | rfl)
      · exact hc
      · exact h
  · simp [List.mem_append]

theorem mem_setDelete (l : List Client) (x c : Client) :
    c ∈ setDelete l x ↔ c ∈ l ∧ c ≠ x := by
  unfold setDelete
  simp [List.mem_filter]

theorem nodup_setAdd (l : List Client) (x : Client) (h : l.Nodup) :
    (setAdd l x).Nodup := by
  unfold setAdd
  split
  · exact h
  · rename_i hx
    simpa [List.nodup_append, hx] using h

theorem nodup_setDelete (l : List Client) (x : Client) (h : l.Nodup) :
    (setDelete l x).Nodup :=
  h.filter _

/-- Every reachable `clients` list is duplicate-free, as a JavaScript
`Set` is. -/
theorem nodup_runFrom (s : ServerState) (h : s.clients.Nodup) :
    ∀ tr : List Event, (runFrom s tr).clients.Nodup := by
  intro tr
  induction tr generalizing s with
  | nil => exact h
  | cons e tr ih =>
    cases e with
    | connection ws => exact ih _ (nodup_setAdd _ _ h)
    | message ws raw rs => exact ih _ h
    | close ws => exact ih _ (nodup_setDelete _ _ h)
    | error ws => exact ih _ h

theorem nodup_runTrace (tr : List Event) : (runTrace tr).clients.Nodup :=
  nodup_runFrom ⟨[]⟩ List.nodup_nil tr

/-!
`raw.toString()` (src/server.js line 87).  The `ws` library hands the
message handler a `Buffer` holding the frame's payload bytes;
`Buffer.prototype.toString()` decodes them as UTF-8, mapping each
maximal invalid subsequence to U+FFFD (the WHATWG replacement rule
Node implements).  `client.send(message)` with a string argument
(line 94) always sends a *text* frame whose wire content is the UTF-8
encoding of that string.  We model strings as lists of Unicode scalar
values and buffers as lists of bytes.
-/

/-- A Unicode scalar value: below 0x110000 and not a surrogate. -/
def validScalar (c : Nat) : Prop :=
  c < 1114112 ∧ (c < 55296 ∨ 57343 < c)

instance (c : Nat) : Decidable (validScalar c) := by
  unfold validScalar; infer_instance

/-- UTF-8 encoding of one scalar value. -/
def utf8EncodeChar (c : Nat) : List Nat :=
  if c < 128 then [c]
  else if c < 2048 then [192 + c / 64, 128 + c % 64]
  else if c < 65536 then [224 + c / 4096, 128 + c / 64 % 64, 128 + c % 64]
  else [240 + c / 262144, 128 + c / 4096 % 64, 128 + c / 64 % 64, 128 + c % 64]

/-- UTF-8 encoding of a string (given as scalar values). -/
def utf8Encode : List Nat → List Nat
  | [] => []
  | c :: cs => utf8EncodeChar c ++ utf8Encode cs

/-- A UTF-8 continuation byte. -/
def isCont (b : Nat) : Prop := 128 ≤ b ∧ b ≤ 191

instance (b : Nat) : Decidable (isCont b) := by
  unfold isCont; infer_instance

/-- Lower bound of the second byte of a multi-byte sequence, given the
lead byte: 0xA0 after 0xE0 and 0x90 after 0xF0 (excluding overlong
forms), else 0x80. -/
def sndLo (b1 : Nat) : Nat :=
  if b1 = 224 then 160 else if b1 = 240 then 144 else 128

/-- Upper bound of the second byte: 0x9F after 0xED (excluding
surrogates) and 0x8F after 0xF4 (excluding values above 0x10FFFF),
else 0xBF. -/
def sndHi (b1 : Nat) : Nat :=
  if b1 = 237 then 159 else if b1 = 244 then 143 else 191

def sndOk (b1 b2 : Nat) : Prop := sndLo b1 ≤ b2 ∧ b2 ≤ sndHi b1

instance (b1 b2 : Nat) : Decidable (sndOk b1 b2) := by
  unfold sndOk; infer_instance

/-- One step of the WHATWG UTF-8 decoder: given the first byte and the
remaining bytes, the scalar value produced (U+FFFD = 65533 on error)
and how many further bytes were consumed. -/
def decodeStep (b : Nat) (rest : List Nat) : Nat × Nat :=
  if b < 128 then (b, 0)
  else if b < 194 then (65533, 0)
  else if b < 224 then
    match rest with
    | b2 :: _ => if isCont b2 then ((b - 192) * 64 + (b2 - 128), 1) else (65533, 0)
    | [] => (65533, 0)
  else if b < 240 then
    match rest with
    | b2 :: rest2 =>
      if sndOk b b2 then
        match rest2 with
        | b3 :: _ =>
          if isCont b3 then ((b - 224) * 4096 + (b2 - 128) * 64 + (b3 - 128), 2)
          else (65533, 1)
        | [] => (65533, 1)
      else (65533, 0)
    | [] => (65533, 0)
  else if b < 245 then
    match rest with
    | b2 :: rest2 =>
      if sndOk b b2 then
        match rest2 with
        | b3 :: rest3 =>
          if isCont b3 then
            match rest3 with
            | b4 :: _ =>
              if isCont b4 then
                ((b - 240) * 262144 + (b2 - 128) * 4096 + (b3 - 128) * 64 + (b4 - 128), 3)
              else (65533, 2)
            | [] => (65533, 2)
          else (65533, 1)
        | [] => (65533, 1)
      else (65533, 0)
    | [] => (65533, 0)
  else (65533, 0)

/-- UTF-8 decoding with replacement, running on fuel; each step
consumes at least one byte, so `l.length` fuel always suffices. -/
def utf8DecodeAux : Nat → List Nat → List Nat
  | 0, _ => []
  | _ + 1, [] => []
  | fuel + 1, b :: rest =>
    let p := decodeStep b rest
    p.1 :: utf8DecodeAux fuel (rest.drop p.2)

/-- `Buffer.prototype.toString()`: UTF-8 decoding with U+FFFD
replacement, as a list of scalar values. -/
def utf8Decode (l : List Nat) : List Nat :=
  utf8DecodeAux l.length l

/-- The payload bytes the server's `Buffer` holds for a frame: a text
frame carries the UTF-8 encoding of its string, a binary frame its
bytes. -/
def frameBytes : Frame → List Nat
  | .text cps => utf8Encode cps
  | .binary bs => bs

/-- What a destination receives: the handler runs
`message = raw.toString()` and `client.send(message)`, so the relayed
frame is always a text frame holding the UTF-8 decoding of the
received payload bytes. -/
def relayFrame (raw : Frame) : Frame :=
  Frame.text (utf8Decode (frameBytes raw))

theorem utf8DecodeAux_nil (fuel : Nat) : utf8DecodeAux fuel [] = [] := by
  cases fuel <;> rfl

theorem utf8DecodeAux_fuel (fuel fuel' : Nat) (l : List Nat)
    (h : l.length ≤ fuel) (h' : l.length ≤ fuel') :
    utf8DecodeAux fuel l = utf8DecodeAux fuel' l := by
  induction fuel generalizing fuel' l with
  | zero =>
    have : l = [] := List.length_eq_zero.mp (Nat.le_zero.mp h)
    subst this
    simp [utf8DecodeAux_nil]
  | succ fu ih =>
    cases l with
    | nil => simp [utf8DecodeAux_nil]
    | cons b rest =>
      cases fuel' with
      | zero => simp at h'
      | succ fu' =>
        show (decodeStep b rest).1 :: utf8DecodeAux fu (rest.drop (decodeStep b rest).2)
            = (decodeStep b rest).1 :: utf8DecodeAux fu' (rest.drop (decodeStep b rest).2)
        have hlen : (rest.drop (decodeStep b rest).2).length ≤ rest.length := by
          simp [List.length_drop]
        simp only [List.length_cons] at h h'
        rw [ih fu' _ (Nat.le_trans hlen (Nat.lt_succ_iff.mp h))
          (Nat.le_trans hlen (Nat.lt_succ_iff.mp h'))]

/-- The real recurrence of the decoder. -/
theorem utf8Decode_cons (b : Nat) (rest : List Nat) :
    utf8Decode (b :: rest)
      = (decodeStep b rest).1 :: utf8Decode (rest.drop (decodeStep b rest).2) := by
  show utf8DecodeAux (rest.length + 1) (b :: rest) = _
  show (decodeStep b rest).1 :: utf8DecodeAux rest.length (rest.drop (decodeStep b rest).2) = _
  rw [utf8DecodeAux_fuel rest.length (rest.drop (decodeStep b rest).2).length _
    (by simp [List.length_drop]) (Nat.le_refl _)]
  rfl

/-- Decoding the UTF-8 encoding of one scalar value recovers it, with
any continuation. -/
theorem utf8Decode_encodeChar (c : Nat) (h : validScalar c) (rest : List Nat) :
    utf8Decode (utf8EncodeChar c ++ rest) = c :: utf8Decode rest := by
  obtain ⟨hmax, hsur⟩ := h
  by_cases h1 : c < 128
  · have he : utf8EncodeChar c = [c] := by
      unfold utf8EncodeChar
      rw [if_pos h1]
    rw [he]
    simp only [List.cons_append, List.nil_append]
    rw [utf8Decode_cons]
    have hstep : decodeStep c rest = (c, 0) := by
      unfold decodeStep
      rw [if_pos h1]
    rw [hstep]
    rfl
  · by_cases h2 : c < 2048
    · have he : utf8EncodeChar c = [192 + c / 64, 128 + c % 64] := by
        unfold utf8EncodeChar
        rw [if_neg h1, if_pos h2]
      rw [he]
      simp only [List.cons_append, List.nil_append]
      rw [utf8Decode_cons]
      have hstep : decodeStep (192 + c / 64) ((128 + c % 64) :: rest) = (c, 1) := by
        unfold decodeStep
        rw [if_neg (by omega : ¬ 192 + c / 64 < 128),
          if_neg (by omega : ¬ 192 + c / 64 < 194),
          if_pos (by omega : 192 + c / 64 < 224)]
        show (if isCont (128 + c % 64)
            then ((192 + c / 64 - 192) * 64 + (128 + c % 64 - 128), 1)
            else (65533, 0)) = (c, 1)
        rw [if_pos (by unfold isCont; omega)]
        have hv : (192 + c / 64 - 192) * 64 + (128 + c % 64 - 128) = c := by omega
        rw [hv]
      rw [hstep]
      rfl
    · by_cases h3 : c < 65536
      · have he : utf8EncodeChar c
            = [224 + c / 4096, 128 + c / 64 % 64, 128 + c % 64] := by
          unfold utf8EncodeChar
          rw [if_neg h1, if_neg h2, if_pos h3]
        rw [he]
        simp only [List.cons_append, List.nil_append]
        rw [utf8Decode_cons]
        have hstep : decodeStep (224 + c / 4096)
            ((128 + c / 64 % 64) :: (128 + c % 64) :: rest) = (c, 2) := by
          unfold decodeStep
          rw [if_neg (by omega : ¬ 224 + c / 4096 < 128),
            if_neg (by omega : ¬ 224 + c / 4096 < 194),
            if_neg (by omega : ¬ 224 + c / 4096 < 224),
            if_pos (by omega : 224 + c / 4096 < 240)]
          show (if sndOk (224 + c / 4096) (128 + c / 64 % 64)
              then (if isCont (128 + c % 64)
                then ((224 + c / 4096 - 224) * 4096
                  + (128 + c / 64 % 64 - 128) * 64 + (128 + c % 64 - 128), 2)
                else (65533, 1))
              else (65533, 0)) = (c, 2)
          rw [if_pos (by unfold sndOk sndLo sndHi; split_ifs <;> omega),
            if_pos (by unfold isCont; omega)]
          have hv : (224 + c / 4096 - 224) * 4096
              + (128 + c / 64 % 64 - 128) * 64 + (128 + c % 64 - 128) = c := by
            omega
          rw [hv]
        rw [hstep]
        rfl
      · have he : utf8EncodeChar c
            = [240 + c / 262144, 128 + c / 4096 % 64,
               128 + c / 64 % 64, 128 + c % 64] := by
          unfold utf8EncodeChar
          rw [if_neg h1, if_neg h2, if_neg h3]
        rw [he]
        simp only [List.cons_append, List.nil_append]
        rw [utf8Decode_cons]
        have hstep : decodeStep (240 + c / 262144)
            ((128 + c / 4096 % 64) :: (128 + c / 64 % 64) :: (128 + c % 64) :: rest)
            = (c, 3) := by
          unfold decodeStep
          rw [if_neg (by omega : ¬ 240 + c / 262144 < 128),
            if_neg (by omega : ¬ 240 + c / 262144 < 194),
            if_neg (by omega : ¬ 240 + c / 262144 < 224),
            if_neg (by omega : ¬ 240 + c / 262144 < 240),
            if_pos (by omega : 240 + c / 262144 < 245)]
          show (if sndOk (240 + c / 262144) (128 + c / 4096 % 64)
              then (if isCont (128 + c / 64 % 64)
                then (if isCont (128 + c % 64)
                  then ((240 + c / 262144 - 240) * 262144
                    + (128 + c / 4096 % 64 - 128) * 4096
                    + (128 + c / 64 % 64 - 128) * 64 + (128 + c % 64 - 128), 3)
                  else (65533, 2))
                else (65533, 1))
              else (65533, 0)) = (c, 3)
          rw [if_pos (by unfold sndOk sndLo sndHi; split_ifs <;> omega),
            if_pos (by unfold isCont; omega),
            if_pos (by unfold isCont; omega)]
          have hv : (240 + c / 262144 - 240) * 262144
              + (128 + c / 4096 % 64 - 128) * 4096
              + (128 + c / 64 % 64 - 128) * 64 + (128 + c % 64 - 128) = c := by
            omega
          rw [hv]
        rw [hstep]
        rfl

/-- UTF-8 round trip: decoding the encoding of any sequence of scalar
values gives it back. -/
theorem utf8Decode_utf8Encode (cps : List Nat) (h : ∀ c ∈ cps, validScalar c) :
    utf8Decode (utf8Encode cps) = cps := by
  induction cps with
  | nil => rfl
  | cons c cs ih =>
    show utf8Decode (utf8EncodeChar c ++ utf8Encode cs) = c :: cs
    rw [utf8Decode_encodeChar c (h c (List.mem_cons_self c cs)) (utf8Encode cs),
      ih (fun x hx => h x (List.mem_cons_of_mem c hx))]

/-- One forwarded message as observed by its destination. -/
structure Delivery where
  dest : Client
  sender : Client
  frame : Frame
deriving DecidableEq, Repr

/-- The sends one handler invocation performs: only the message
handler sends, to the clients passing the line-93 guard, each
receiving the `toString`-relayed payload. -/
def eventOutputs (s : ServerState) : Event → List Delivery
  | .message ws raw rs =>
    (broadcastTargets s.clients ws rs).map (fun c => ⟨c, ws, relayFrame raw⟩)
  | _ => []

/-- All sends performed while processing a trace, in program order:
the events are dispatched one at a time on the single-threaded event
loop, each broadcast running to completion before the next event. -/
def outputsFrom (s : ServerState) : List Event → List Delivery
  | [] => []
  | e :: tr => eventOutputs s e ++ outputsFrom (step s e) tr

/-- The delivery sequence of a whole trace from the empty initial
state. -/
def deliveries (tr : List Event) : List Delivery :=
  outputsFrom ⟨[]⟩ tr

/-- Traces the `ws` library can actually produce for the handlers:
`message`, `close` and `error` events of a socket fire only between
its `connection` event and its `close` event, and each socket object
connects once.  `connected` records every socket seen so far, `live`
the ones whose `close` has not fired. -/
def validFrom (connected live : List Client) : List Event → Bool
  | [] => true
  | .connection ws :: tr =>
    decide (ws ∉ connected) && validFrom (ws :: connected) (ws :: live) tr
  | .message ws _ _ :: tr => decide (ws ∈ live) && validFrom connected live tr
  | .close ws :: tr =>
    decide (ws ∈ live) && validFrom connected (live.filter (fun c => decide (c ≠ ws))) tr
  | .error ws :: tr => decide (ws ∈ live) && validFrom connected live tr

def validTrace (tr : List Event) : Bool :=
  validFrom [] [] tr

theorem runFrom_append (s : ServerState) (l₁ l₂ : List Event) :
    runFrom s (l₁ ++ l₂) = runFrom (runFrom s l₁) l₂ := by
  induction l₁ generalizing s with
  | nil => rfl
  | cons e l₁ ih => exact ih (step s e)

theorem outputsFrom_append (s : ServerState) (l₁ l₂ : List Event) :
    outputsFrom s (l₁ ++ l₂)
      = outputsFrom s l₁ ++ outputsFrom (runFrom s l₁) l₂ := by
  induction l₁ generalizing s with
  | nil => rfl
  | cons e l₁ ih =>
    show eventOutputs s e ++ outputsFrom (step s e) (l₁ ++ l₂) = _
    rw [ih (step s e)]
    exact (List.append_assoc _ _ _).symm

/-- While a trace stays valid, the `live` set of the transport and the
server's `clients` set have the same members: the key invariant behind
the registration-before-message property. -/
theorem validFrom_message_mem (tr₁ : List Event) :
    ∀ (connected live : List Client) (s : ServerState),
    (∀ c, c ∈ live ↔ c ∈ s.clients) →
    ∀ (tr₂ : List Event) (ws : Client) (m : Frame) (rs : Client → Nat),
    validFrom connected live (tr₁ ++ Event.message ws m rs :: tr₂) = true →
    ws ∈ (runFrom s tr₁).clients := by
  induction tr₁ with
  | nil =>
    intro connected live s hinv tr₂ ws m rs hv
    simp only [List.nil_append, validFrom, Bool.and_eq_true, decide_eq_true_eq] at hv
    exact (hinv ws).mp hv.1
  | cons e tr₁ ih =>
    intro connected live s hinv tr₂ ws m rs hv
    cases e with
    | connection w =>
      simp only [List.cons_append, validFrom, Bool.and_eq_true] at hv
      refine ih (w :: connected) (w :: live) (step s (.connection w)) ?_ tr₂ ws m rs hv.2
      intro c
      show c ∈ w :: live ↔ c ∈ setAdd s.clients w
      rw [List.mem_cons, mem_setAdd, hinv c]
      tauto
    | message w raw rs' =>
      simp only [List.cons_append, validFrom, Bool.and_eq_true] at hv
      exact ih connected live s hinv tr₂ ws m rs hv.2
    | close w =>
      simp only [List.cons_append, validFrom, Bool.and_eq_true] at hv
      refine ih connected (live.filter (fun c => decide (c ≠ w)))
        (step s (.close w)) ?_ tr₂ ws m rs hv.2
      intro c
      show c ∈ live.filter (fun c => decide (c ≠ w)) ↔ c ∈ setDelete s.clients w
      rw [mem_setDelete, List.mem_filter, hinv c]
      simp
    | error w =>
      simp only [List.cons_append, validFrom, Bool.and_eq_true] at hv
      exact ih connected live s hinv tr₂ ws m rs hv.2

/-- Once a client is absent and no later event connects it, it stays
absent. -/
theorem not_mem_runFrom (tr : List Event) :
    ∀ (s : ServerState) (e : Client), e ∉ s.clients →
    (∀ ev ∈ tr, ev ≠ Event.connection e) →
    e ∉ (runFrom s tr).clients := by
  induction tr with
  | nil => intro s e he _; exact he
  | cons ev tr ih =>
    intro s e he hconn
    refine ih (step s ev) e ?_ (fun x hx => hconn x (List.mem_cons_of_mem ev hx))
    cases ev with
    | connection w =>
      have hw : w ≠ e := by
        intro h
        exact hconn (.connection w) (List.mem_cons_self _ _) (by rw [h])
      show e ∉ setAdd s.clients w
      rw [mem_setAdd]
      rintro (h | h)
      · exact he h
      · exact hw h.symm
    | message w raw rs => exact he
    | close w =>
      show e ∉ setDelete s.clients w
      rw [mem_setDelete]
      exact fun h => he h.1
    | error w => exact he

/-!
HTTP layer (src/server.js lines 31, 37-73): the `ROUTES` and
`MIME_TYPES` tables, `path.extname`, the request handler, and the
`PORT` configuration.  `fs.readFile`'s outcome is environment input,
a function from file name to `Option` of the file's bytes.
-/

/-- The `ROUTES` object (lines 37-42): property lookup on a literal
object is lookup in an association list. -/
def ROUTES : List (String × String) :=
  [("/", "auto.html"), ("/auto", "auto.html"),
   ("/sender", "sender.html"), ("/receiver", "receiver.html")]

/-- The `MIME_TYPES` object (lines 44-48). -/
def MIME_TYPES : List (String × String) :=
  [(".html", "text/html"), (".js", "application/javascript"),
   (".css", "text/css")]

def lookupStr : List (String × String) → String → Option String
  | [], _ => none
  | (k, v) :: rest, key => if key = k then some v else lookupStr rest key

/-- Index of the last dot of a (base) name, provided it is not the
first character: `path.extname` returns the suffix from that dot, and
the empty string when there is none. -/
def lastDotIdx : List Char → Nat → Option Nat
  | [], _ => none
  | ch :: rest, i =>
    match lastDotIdx rest (i + 1) with
    | some j => some j
    | none => if ch = '.' ∧ i ≠ 0 then some i else none

/-- `path.extname` on a base name (the route table's file names hold
no directory separator). -/
def extname (s : String) : String :=
  match lastDotIdx s.toList 0 with
  | some j => String.mk (s.toList.drop j)
  | none => ""

/-- One HTTP response: status code, `Content-Type` header, and body
(either a literal error string or the bytes read from the file). -/
structure Response where
  status : Nat
  contentType : String
  body : String ⊕ List Nat
deriving DecidableEq, Repr

/-- The `http.createServer` request handler (lines 50-73).
`readFile` is the file system: `none` models a read error (the `err`
branch), `some data` a successful read. -/
def handleRequest (url : String) (readFile : String → Option (List Nat)) :
    Response :=
  match lookupStr ROUTES url with
  | none => ⟨404, "text/plain", Sum.inl "404 — Not Found"⟩
  | some fileName =>
    match readFile fileName with
    | none => ⟨500, "text/plain", Sum.inl "500 — Internal Server Error"⟩
    | some data =>
      ⟨200, (lookupStr MIME_TYPES (extname fileName)).getD
        "application/octet-stream", Sum.inr data⟩

/-- `const PORT = process.env.PORT || 8080` (line 31).  The
environment variable is a string or absent; `||` keeps the string
whenever it is truthy, and the only falsy string in JavaScript is the
empty one. -/
def PORT (env : Option String) : String ⊕ Nat :=
  match env with
  | some s => if s = "" then Sum.inr 8080 else Sum.inl s
  | none => Sum.inr 8080

/-!  The claims.  -/

theorem filter_ne_of_not_mem (l : List Client) (E : Client) (h : E ∉ l) :
    l.filter (fun c => decide (c ≠ E)) = l := by
  induction l with
  | nil => rfl
  | cons a l ih =>
    have ha : a ≠ E := fun hae => h (hae ▸ List.mem_cons_self a l)
    rw [List.filter_cons_of_pos (by simpa using ha)]
    rw [ih (fun hE => h (List.mem_cons_of_mem a hE))]

theorem length_filter_ne (l : List Client) (E : Client) (hnd : l.Nodup)
    (hE : E ∈ l) :
    (l.filter (fun c => decide (c ≠ E))).length = l.length - 1 := by
  induction l with
  | nil => cases hE
  | cons a l ih =>
    rcases List.mem_cons.mp hE with rfl | hEl
    · rw [List.filter_cons_of_neg (by simp)]
      rw [filter_ne_of_not_mem l E (List.nodup_cons.mp hnd).1]
      rfl
    · have haE : a ≠ E := fun hae => (List.nodup_cons.mp hnd).1 (hae ▸ hEl)
      rw [List.filter_cons_of_pos (by simpa using haE)]
      rw [List.length_cons, ih (List.nodup_cons.mp hnd).2 hEl]
      have : 1 ≤ l.length := List.length_pos.mpr (List.ne_nil_of_mem hEl)
      simp only [List.length_cons]
      omega

/-- C1: with every member of the active set open, the broadcast for a
message from endpoint `E` targets exactly the other `N − 1` members —
each exactly once — and never `E` itself. -/
theorem fanout_exclusion (clients : List Client) (E : Client)
    (rs : Client → Nat) (hnd : clients.Nodup) (hE : E ∈ clients)
    (hN : 2 ≤ clients.length) (hopen : ∀ c ∈ clients, rs c = 1) :
    (broadcastTargets clients E rs).length = clients.length - 1 ∧
    E ∉ broadcastTargets clients E rs ∧
    (∀ c, c ∈ broadcastTargets clients E rs ↔ c ∈ clients ∧ c ≠ E) ∧
    (broadcastTargets clients E rs).Nodup := by
  have hfe : broadcastTargets clients E rs
      = clients.filter (fun c => decide (c ≠ E)) := by
    unfold broadcastTargets
    apply List.filter_congr
    intro c hc
    simp [hopen c hc]
  refine ⟨?_, ?_, ?_, ?_⟩
  · rw [hfe]
    exact length_filter_ne clients E hnd hE
  · rw [hfe]
    intro h
    exact (by simpa using (List.mem_filter.mp h).2 : E ≠ E) rfl
  · intro c
    rw [hfe, List.mem_filter]
    simp
  · rw [hfe]
    exact hnd.filter _

theorem fanout_exclusion_witness :
    (broadcastTargets [0, 1, 2] 1 (fun _ => 1)).length = 2 ∧
    1 ∉ broadcastTargets [0, 1, 2] 1 (fun _ => 1) ∧
    (∀ c, c ∈ broadcastTargets [0, 1, 2] 1 (fun _ => 1) ↔
      c ∈ [0, 1, 2] ∧ c ≠ 1) ∧
    (broadcastTargets [0, 1, 2] 1 (fun _ => 1)).Nodup := by
  have h := fanout_exclusion [0, 1, 2] 1 (fun _ => 1) (by decide) (by decide)
    (by decide) (fun c _ => rfl)
  simpa using h

/-- C6: deleting an endpoint that is not in the active set is a no-op:
the state is unchanged, the cardinality stays the same, and every
subsequent operation behaves as if the call had not happened. -/
theorem unregister_absent_noop (s : ServerState) (x : Client)
    (h : x ∉ s.clients) :
    step s (Event.close x) = s ∧
    (step s (Event.close x)).clients.length = s.clients.length ∧
    ∀ e : Event, step (step s (Event.close x)) e = step s e := by
  have hd : setDelete s.clients x = s.clients :=
    filter_ne_of_not_mem s.clients x h
  have hs : step s (Event.close x) = s := by
    show (⟨setDelete s.clients x⟩ : ServerState) = s
    rw [hd]
  exact ⟨hs, by rw [hs], fun e => by rw [hs]⟩

theorem unregister_absent_noop_witness :
    step ⟨[1, 2]⟩ (Event.close 0) = (⟨[1, 2]⟩ : ServerState) :=
  (unregister_absent_noop ⟨[1, 2]⟩ 0 (by decide)).1

/-- C9: processing a message event never mutates the active set, and
of all events only `connection` and `close` can change it. -/
theorem message_preserves_clients (s : ServerState) (ws : Client)
    (raw : Frame) (rs : Client → Nat) :
    step s (Event.message ws raw rs) = s ∧
    ∀ e : Event, (step s e).clients = s.clients ∨
      (∃ w, e = Event.connection w) ∨ (∃ w, e = Event.close w) := by
  refine ⟨rfl, ?_⟩
  intro e
  cases e with
  | connection w => exact Or.inr (Or.inl ⟨w, rfl⟩)
  | message w raw' rs' => exact Or.inl rfl
  | close w => exact Or.inr (Or.inr ⟨w, rfl⟩)
  | error w => exact Or.inl rfl

/-- C10 counterexample: the claim says a `PORT` value of `"0"` is not
truthy and falls back to 8080; in JavaScript every non-empty string is
truthy, so the code keeps `"0"`. -/
theorem port_zero_string_kept :
    PORT (some "0") = Sum.inl "0" ∧ PORT (some "0") ≠ Sum.inr 8080 := by
  constructor
  · rfl
  · intro h
    cases h

/-- C10 (amended): the listening port is the value of `PORT` whenever
it is a non-empty string (including `"0"`), and 8080 when the variable
is unset or empty. -/
theorem port_default :
    PORT none = Sum.inr 8080 ∧ PORT (some "") = Sum.inr 8080 ∧
    ∀ s : String, s ≠ "" → PORT (some s) = Sum.inl s := by
  refine ⟨rfl, rfl, ?_⟩
  intro s hs
  show (if s = "" then (Sum.inr 8080 : String ⊕ Nat) else Sum.inl s) = Sum.inl s
  rw [if_neg hs]

theorem port_default_witness :
    PORT (some "3000") = Sum.inl "3000" :=
  port_default.2.2 "3000" (by decide)

/-- C8: an unknown route yields a 404 response, a failed read of a
known route's file yields a 500 response, and a successful read yields
a 200 response whose content type is looked up from the file's
extension (defaulting to `application/octet-stream`). -/
theorem http_routing (url : String) (readFile : String → Option (List Nat)) :
    (lookupStr ROUTES url = none →
      handleRequest url readFile
        = ⟨404, "text/plain", Sum.inl "404 — Not Found"⟩) ∧
    (∀ f, lookupStr ROUTES url = some f → readFile f = none →
      handleRequest url readFile
        = ⟨500, "text/plain", Sum.inl "500 — Internal Server Error"⟩) ∧
    (∀ f data, lookupStr ROUTES url = some f → readFile f = some data →
      handleRequest url readFile
        = ⟨200, (lookupStr MIME_TYPES (extname f)).getD
            "application/octet-stream", Sum.inr data⟩) := by
  refine ⟨?_, ?_, ?_⟩
  · intro h
    unfold handleRequest
    rw [h]
  · intro f hf hr
    simp [handleRequest, hf, hr]
  · intro f data hf hr
    simp [handleRequest, hf, hr]

theorem http_routing_witness :
    handleRequest "/nope" (fun _ => none)
      = ⟨404, "text/plain", Sum.inl "404 — Not Found"⟩ ∧
    handleRequest "/auto" (fun _ => none)
      = ⟨500, "text/plain", Sum.inl "500 — Internal Server Error"⟩ ∧
    handleRequest "/auto" (fun _ => some [60, 104, 49, 62])
      = ⟨200, "text/html", Sum.inr [60, 104, 49, 62]⟩ := by
  refine ⟨(http_routing "/nope" (fun _ => none)).1 rfl,
    (http_routing "/auto" (fun _ => none)).2.1 "auto.html" rfl rfl, ?_⟩
  have h := (http_routing "/auto" (fun _ => some [60, 104, 49, 62])).2.2
    "auto.html" [60, 104, 49, 62] rfl rfl
  rw [h]
  rfl

/-- C2 counterexample: a binary frame holding the single byte 0xFF is
relayed as a *text* frame holding U+FFFD — the framing is changed and
the forwarded bytes (the UTF-8 encoding of U+FFFD) differ from the
received ones. -/
theorem relay_not_byte_identical :
    relayFrame (Frame.binary [255]) = Frame.text [65533] ∧
    relayFrame (Frame.binary [255]) ≠ Frame.binary [255] ∧
    frameBytes (relayFrame (Frame.binary [255])) = [239, 191, 189] := by
  refine ⟨rfl, ?_, rfl⟩
  intro h
  cases h

/-- C2 (amended): a *text* payload is forwarded unmodified
(`toString` of its UTF-8 bytes is the same string), but every relayed
frame is a text frame: binary framing is not preserved, and binary
payload bytes are forwarded only up to UTF-8 decoding with
replacement. -/
theorem relay_text_identity (cps : List Nat)
    (h : ∀ c ∈ cps, validScalar c) :
    relayFrame (Frame.text cps) = Frame.text cps ∧
    ∀ f : Frame, relayFrame f = Frame.text (utf8Decode (frameBytes f)) := by
  constructor
  · show Frame.text (utf8Decode (utf8Encode cps)) = Frame.text cps
    rw [utf8Decode_utf8Encode cps h]
  · intro f
    rfl

theorem relay_text_identity_witness :
    relayFrame (Frame.text [104, 233, 8364, 128512])
      = Frame.text [104, 233, 8364, 128512] :=
  (relay_text_identity [104, 233, 8364, 128512] (by decide)).1

/-- C3 counterexample: `[connect 0, error 0]` is a trace the transport
can produce, and after the error event has been observed the endpoint
is still in the active set — the error handler only logs. -/
theorem error_leaves_endpoint_registered :
    validTrace [Event.connection 0, Event.error 0] = true ∧
    0 ∈ (runTrace [Event.connection 0, Event.error 0]).clients := by
  exact ⟨rfl, by decide⟩

/-- C3 (amended): the error handler leaves the active set unchanged;
an endpoint whose *close* event has been observed (and that has not
reconnected since) is not in the active set — after an error, removal
happens through the close event the transport subsequently emits. -/
theorem close_removes_endpoint :
    (∀ (s : ServerState) (w : Client), step s (Event.error w) = s) ∧
    ∀ (tr₁ tr₂ : List Event) (e : Client),
      (∀ ev ∈ tr₂, ev ≠ Event.connection e) →
      e ∉ (runTrace (tr₁ ++ Event.close e :: tr₂)).clients := by
  constructor
  · intro s w
    rfl
  · intro tr₁ tr₂ e hconn
    unfold runTrace
    rw [runFrom_append]
    refine not_mem_runFrom tr₂ (step (runFrom ⟨[]⟩ tr₁) (Event.close e)) e ?_ hconn
    show e ∉ setDelete (runFrom ⟨[]⟩ tr₁).clients e
    rw [mem_setDelete]
    exact fun h => h.2 rfl

theorem close_removes_endpoint_witness :
    0 ∉ (runTrace ([Event.connection 0, Event.error 0]
      ++ Event.close 0 :: [])).clients :=
  close_removes_endpoint.2 [Event.connection 0, Event.error 0] [] 0
    (by intro ev hev; cases hev)

theorem broadcastLoop_mem (clients : List Client) (ws : Client)
    (rs : Client → Nat) (sendOk : Client → Bool) :
    ∀ c ∈ clients, c ≠ ws → rs c = 1 →
      (c, sendOk c) ∈ broadcastLoop clients ws rs sendOk := by
  induction clients with
  | nil => intro c hc; cases hc
  | cons a l ih =>
    intro c hc hcw hco
    by_cases hg : a ≠ ws ∧ rs a = 1
    · rw [show broadcastLoop (a :: l) ws rs sendOk
          = (a, sendOk a) :: broadcastLoop l ws rs sendOk from if_pos hg]
      rcases List.mem_cons.mp hc with rfl | hcl
      · exact List.mem_cons_self _ _
      · exact List.mem_cons_of_mem _ (ih c hcl hcw hco)
    · rw [show broadcastLoop (a :: l) ws rs sendOk
          = broadcastLoop l ws rs sendOk from if_neg hg]
      rcases List.mem_cons.mp hc with rfl | hcl
      · exact absurd ⟨hcw, hco⟩ hg
      · exact ih c hcl hcw hco

theorem broadcastLoop_not_sender (clients : List Client) (ws : Client)
    (rs : Client → Nat) (sendOk : Client → Bool) :
    ∀ b : Bool, (ws, b) ∉ broadcastLoop clients ws rs sendOk := by
  induction clients with
  | nil => intro b h; cases h
  | cons a l ih =>
    intro b h
    by_cases hg : a ≠ ws ∧ rs a = 1
    · rw [show broadcastLoop (a :: l) ws rs sendOk
          = (a, sendOk a) :: broadcastLoop l ws rs sendOk from if_pos hg] at h
      rcases List.mem_cons.mp h with heq | hm
      · exact hg.1 (congrArg Prod.fst heq).symm
      · exact ih b hm
    · rw [show broadcastLoop (a :: l) ws rs sendOk
          = broadcastLoop l ws rs sendOk from if_neg hg] at h
      exact ih b h

theorem broadcastLoop_map_fst (clients : List Client) (ws : Client)
    (rs : Client → Nat) (sendOk : Client → Bool) :
    (broadcastLoop clients ws rs sendOk).map Prod.fst
      = broadcastTargets clients ws rs := by
  induction clients with
  | nil => rfl
  | cons a l ih =>
    by_cases hg : a ≠ ws ∧ rs a = 1
    · rw [show broadcastLoop (a :: l) ws rs sendOk
          = (a, sendOk a) :: broadcastLoop l ws rs sendOk from if_pos hg]
      unfold broadcastTargets
      rw [List.filter_cons_of_pos (by simpa using hg), List.map_cons]
      rw [ih]
      rfl
    · rw [show broadcastLoop (a :: l) ws rs sendOk
          = broadcastLoop l ws rs sendOk from if_neg hg]
      unfold broadcastTargets
      rw [List.filter_cons_of_neg (by simpa using hg)]
      exact ih

/-- C4: a failed send to one destination does not remove, reorder or
abort the send attempts to the other destinations — every other open
destination whose own send succeeds still appears with a successful
attempt, the attempted-destination list is exactly the line-93 filter
regardless of outcomes, nothing is ever sent to the sender, and the
active set is untouched. -/
theorem send_failure_isolated (clients : List Client) (ws d : Client)
    (rs : Client → Nat) (sendOk : Client → Bool) (s : ServerState)
    (raw : Frame) (hd : sendOk d = false) :
    (∀ c ∈ clients, c ≠ ws → c ≠ d → rs c = 1 → sendOk c = true →
      (c, true) ∈ broadcastLoop clients ws rs sendOk) ∧
    (∀ b : Bool, (ws, b) ∉ broadcastLoop clients ws rs sendOk) ∧
    (broadcastLoop clients ws rs sendOk).map Prod.fst
      = broadcastTargets clients ws rs ∧
    step s (Event.message ws raw rs) = s := by
  refine ⟨?_, broadcastLoop_not_sender clients ws rs sendOk,
    broadcastLoop_map_fst clients ws rs sendOk, rfl⟩
  intro c hc hcw _ hco hok
  have := broadcastLoop_mem clients ws rs sendOk c hc hcw hco
  rw [hok] at this
  exact this

theorem send_failure_isolated_witness :
    (2, true) ∈ broadcastLoop [0, 1, 2] 0 (fun _ => 1) (fun c => c != 1) ∧
    (∀ b : Bool, (0, b) ∉ broadcastLoop [0, 1, 2] 0 (fun _ => 1) (fun c => c != 1)) := by
  have h := send_failure_isolated [0, 1, 2] 0 1 (fun _ => 1) (fun c => c != 1)
    ⟨[0, 1, 2]⟩ (Frame.text [112]) (by decide)
  exact ⟨h.1 2 (by decide) (by decide) (by decide) rfl (by decide), h.2.1⟩

/-- C7: in every trace the transport can produce, an endpoint's
`connection` event — which adds it to the active set — precedes any of
its message events, so when a message from `ws` is handled, `ws` is a
member of the active set. -/
theorem registration_before_message (tr₁ tr₂ : List Event) (ws : Client)
    (m : Frame) (rs : Client → Nat)
    (hv : validTrace (tr₁ ++ Event.message ws m rs :: tr₂) = true) :
    ws ∈ (runTrace tr₁).clients :=
  validFrom_message_mem tr₁ [] [] ⟨[]⟩ (fun _ => Iff.rfl) tr₂ ws m rs hv

theorem registration_before_message_witness :
    0 ∈ (runTrace [Event.connection 0, Event.connection 1]).clients :=
  registration_before_message [Event.connection 0, Event.connection 1] []
    0 (Frame.text [104]) (fun _ => 1) (by decide)

/-- C5: events are dispatched sequentially, and each broadcast runs to
completion before the next event, so if endpoint `A`'s message `m1` is
received (and broadcast) before its message `m2`, any endpoint `c`
targeted by both broadcasts has `m1`'s delivery strictly before
`m2`'s in the global delivery sequence. -/
theorem order_preserved_per_sender (tr₁ tr₂ tr₃ : List Event)
    (A c : Client) (m1 m2 : Frame) (rs₁ rs₂ : Client → Nat)
    (h1 : c ∈ broadcastTargets (runTrace tr₁).clients A rs₁)
    (h2 : c ∈ broadcastTargets
      (runTrace (tr₁ ++ Event.message A m1 rs₁ :: tr₂)).clients A rs₂) :
    ∃ D₁ D₂ D₃ : List Delivery,
      deliveries (tr₁ ++ (Event.message A m1 rs₁ :: tr₂)
          ++ (Event.message A m2 rs₂ :: tr₃))
        = D₁ ++ Delivery.mk c A (relayFrame m1)
            :: (D₂ ++ Delivery.mk c A (relayFrame m2) :: D₃) := by
  obtain ⟨u₁, v₁, he₁⟩ := List.append_of_mem h1
  obtain ⟨u₂, v₂, he₂⟩ := List.append_of_mem h2
  refine ⟨deliveries tr₁ ++ u₁.map (fun x => ⟨x, A, relayFrame m1⟩),
    v₁.map (fun x => ⟨x, A, relayFrame m1⟩)
      ++ outputsFrom (runTrace tr₁) tr₂
      ++ u₂.map (fun x => ⟨x, A, relayFrame m2⟩),
    v₂.map (fun x => ⟨x, A, relayFrame m2⟩)
      ++ outputsFrom (runTrace (tr₁ ++ Event.message A m1 rs₁ :: tr₂)) tr₃,
    ?_⟩
  unfold deliveries
  rw [outputsFrom_append, outputsFrom_append]
  show (outputsFrom ⟨[]⟩ tr₁
      ++ ((broadcastTargets (runTrace tr₁).clients A rs₁).map
            (fun x => ⟨x, A, relayFrame m1⟩)
          ++ outputsFrom (runTrace tr₁) tr₂))
    ++ ((broadcastTargets
          (runTrace (tr₁ ++ Event.message A m1 rs₁ :: tr₂)).clients A rs₂).map
            (fun x => ⟨x, A, relayFrame m2⟩)
        ++ outputsFrom (runTrace (tr₁ ++ Event.message A m1 rs₁ :: tr₂)) tr₃)
      = _
  rw [he₁, he₂]
  simp only [List.map_append, List.map_cons, List.append_assoc,
    List.cons_append]

theorem order_preserved_per_sender_witness :
    ∃ D₁ D₂ D₃ : List Delivery,
      deliveries ([Event.connection 0, Event.connection 1]
          ++ (Event.message 0 (Frame.text [97]) (fun _ => 1) :: [])
          ++ (Event.message 0 (Frame.text [98]) (fun _ => 1) :: []))
        = D₁ ++ Delivery.mk 1 0 (relayFrame (Frame.text [97]))
            :: (D₂ ++ Delivery.mk 1 0 (relayFrame (Frame.text [98])) :: D₃) :=
  order_preserved_per_sender [Event.connection 0, Event.connection 1] [] []
    0 1 (Frame.text [97]) (Frame.text [98]) (fun _ => 1) (fun _ => 1)
    (by decide) (by decide)
